import Mathlib

/-!
Verification of the beam-selection backend: a shallow embedding of the
multi-link beam environment (angle codec, beam alignment, SINR capacity
model), the four tabular reinforcement-learning agents, and the
optimization dispatcher, together with proofs of the specified
properties. Machine floats are modelled as real numbers; random draws
(reset states, exploration draws, the Double Q coin) are modelled as
explicit parameters supplied by a stream.
-/

/-- Mixed-radix accumulation: the running sum of the encode loop, where the
digit at list position p contributes digit * num_steps ^ (i + p). -/
def to_state_index_aux (ns : Nat) : List Nat → Nat → Nat
  | [], _ => 0
  | d :: rest, i => d * ns ^ i + to_state_index_aux ns rest (i + 1)

/-- Embedding of the environment method to state index: converts a tuple of
per-link angle indices to a single integer, link 0 least significant. -/
def to_state_index (ns : Nat) (idxs : List Nat) : Nat :=
  to_state_index_aux ns idxs 0

/-- Embedding of the environment method to angle indices: converts a state
index back to the list of num_links angle indices by repeated mod and div. -/
def to_angle_indices (ns : Nat) : Nat → Nat → List Nat
  | 0, _ => []
  | numLinks + 1, code => code % ns :: to_angle_indices ns numLinks (code / ns)

/-- A transmitter and receiver pair, positions in the plane. -/
structure Link where
  tx_pos : ℝ × ℝ
  rx_pos : ℝ × ℝ

/-- The multi-beam 2D environment: the link geometry and the number of
discrete azimuth steps. -/
structure Env where
  links : List Link
  num_azimuth_steps : Nat

/-- The number of links of the environment. -/
def Env.numLinks (e : Env) : Nat := e.links.length

/-- The joint state space size, num_steps to the power num_links. -/
def Env.stateSpaceSize (e : Env) : Nat := e.num_azimuth_steps ^ e.numLinks

/-- The joint action space size, equal to the state space size. -/
def Env.actionSpaceSize (e : Env) : Nat := e.num_azimuth_steps ^ e.numLinks

/-- Link lookup by position in the link list. -/
def Env.link (e : Env) (i : Nat) : Link := e.links.getD i ⟨(0, 0), (0, 0)⟩

/-- Entry k of the azimuth angle grid, linspace over [0, 360) with num_steps
points and the endpoint excluded: k * (360 / num_steps) degrees. -/
noncomputable def Env.azimuthAngle (e : Env) (k : Nat) : ℝ :=
  (k : ℝ) * (360 / (e.num_azimuth_steps : ℝ))

/-- Embedding of get beam alignment: the dot product of the transmit
direction unit vector with the unit-normalized direction from transmitter to
receiver, clamped below at 0; defined as 1 when the two positions coincide. -/
noncomputable def get_beam_alignment (tx rx : ℝ × ℝ) (deg : ℝ) : ℝ :=
  let dx := rx.1 - tx.1
  let dy := rx.2 - tx.2
  let nrm := Real.sqrt (dx ^ 2 + dy ^ 2)
  if nrm = 0 then 1
  else
    max 0 (Real.cos (deg * Real.pi / 180) * (dx / nrm) +
      Real.sin (deg * Real.pi / 180) * (dy / nrm))

/-- Signal power of link i: 10 times the tenth power of the alignment of the
transmit beam of link i toward its own receiver. -/
noncomputable def signal_power (e : Env) (idxs : List Nat) (i : Nat) : ℝ :=
  10 * (get_beam_alignment (e.link i).tx_pos (e.link i).rx_pos
    (e.azimuthAngle (idxs.getD i 0))) ^ 10

/-- One term of the interference loop body for target link i and source j:
zero when j is the target itself, otherwise 10 times the tenth power of the
alignment of the transmit beam of link j toward the receiver of link i. -/
noncomputable def interference_term (e : Env) (idxs : List Nat) (i j : Nat) : ℝ :=
  if i = j then 0
  else 10 * (get_beam_alignment (e.link j).tx_pos (e.link i).rx_pos
    (e.azimuthAngle (idxs.getD j 0))) ^ 10

/-- The interference loop: accumulated interference power on link i from the
first n links. -/
noncomputable def interference_power (e : Env) (idxs : List Nat) (i : Nat) : Nat → ℝ
  | 0 => 0
  | j + 1 => interference_power e idxs i j + interference_term e idxs i j

/-- Capacity of link i: log base 2 of one plus the SINR, with noise floor
0.1 added to the interference power in the denominator. -/
noncomputable def link_capacity (e : Env) (idxs : List Nat) (i : Nat) : ℝ :=
  Real.logb 2
    (1 + signal_power e idxs i / (interference_power e idxs i e.numLinks + 0.1))

/-- The capacity loop: the per-link capacity list and the accumulated total
after processing the first n links. -/
noncomputable def cap_loop (e : Env) (idxs : List Nat) : Nat → List ℝ × ℝ
  | 0 => ([], 0)
  | n + 1 =>
    let p := cap_loop e idxs n
    (p.1 ++ [link_capacity e idxs n], p.2 + link_capacity e idxs n)

/-- Embedding of get individual capacities: the per-link capacities and the
accumulated total over all links. -/
noncomputable def get_individual_capacities (e : Env) (idxs : List Nat) :
    List ℝ × ℝ :=
  cap_loop e idxs e.numLinks

/-- Embedding of calculate network capacity: the sum of the per-link
capacity list. -/
noncomputable def calculate_network_capacity (e : Env) (idxs : List Nat) : ℝ :=
  (get_individual_capacities e idxs).1.sum

/-- Embedding of the environment step method: the new stored state together
with the returned triple of state, reward and done flag. The old stored
state is an argument and is discarded, as in the source. -/
noncomputable def Env.step (e : Env) (st action : Nat) :
    Nat × (Nat × ℝ × Bool) :=
  let state := action
  let reward :=
    calculate_network_capacity e (to_angle_indices e.num_azimuth_steps e.numLinks action)
  (state, (state, reward, true))

/-- A value table over the joint state and action space. -/
def Table : Type := Nat → Nat → ℝ

/-- The all-zero value table every agent starts from. -/
noncomputable def zero_table : Table := fun _ _ => 0

/-- Pointwise table update at one state and action pair. -/
def updateEntry (q : Table) (s a : Nat) (v : ℝ) : Table :=
  fun s2 a2 => if s2 = s ∧ a2 = a then v else q s2 a2

/-- Maximum of the first n values of a row, mirroring the numpy max of a
length-n array; 0 in the degenerate empty case. -/
noncomputable def maxFun (f : Nat → ℝ) : Nat → ℝ
  | 0 => 0
  | 1 => f 0
  | n + 2 => max (maxFun f (n + 1)) (f (n + 1))

/-- First index attaining the maximum of the first n values of a row,
mirroring the numpy argmax of a length-n array. -/
noncomputable def argmaxFun (f : Nat → ℝ) : Nat → Nat
  | 0 => 0
  | 1 => 0
  | n + 2 => if f (argmaxFun f (n + 1)) < f (n + 1) then n + 1 else argmaxFun f (n + 1)

/-- Sum of the first n values of a row, mirroring the numpy sum. -/
noncomputable def sumFun (f : Nat → ℝ) : Nat → ℝ
  | 0 => 0
  | n + 1 => sumFun f n + f n

/-- Embedding of the Q-learning update: blend the old entry with the reward
plus the discounted row maximum at the next state. -/
noncomputable def q_update (A : Nat) (al ga : ℝ) (q : Table) (s a : Nat) (r : ℝ)
    (ns : Nat) : Table :=
  updateEntry q s a ((1 - al) * q s a + al * (r + ga * maxFun (q ns) A))

/-- Embedding of the SARSA update: blend the old entry with the reward plus
the discounted value of the actually chosen next action. -/
noncomputable def sarsa_update (al ga : ℝ) (q : Table) (s a : Nat) (r : ℝ)
    (ns na : Nat) : Table :=
  updateEntry q s a ((1 - al) * q s a + al * (r + ga * q ns na))

/-- Embedding of the Double Q update: the coin selects which table is
written; the written entry blends toward the reward plus the discounted
value, in the other table, of the argmax of the other table at the next
state; the non-chosen table is returned unchanged. -/
noncomputable def double_q_update (A : Nat) (al ga : ℝ) (q1 q2 : Table)
    (coin : Bool) (s a : Nat) (r : ℝ) (ns : Nat) : Table × Table :=
  if coin then
    let bestA := argmaxFun (q2 ns) A
    (updateEntry q1 s a ((1 - al) * q1 s a + al * (r + ga * q2 ns bestA)), q2)
  else
    let bestA := argmaxFun (q1 ns) A
    (q1, updateEntry q2 s a ((1 - al) * q2 s a + al * (r + ga * q1 ns bestA)))

/-- Embedding of get expected value: the expectation of the row at the given
state under the epsilon-greedy policy over A actions. -/
noncomputable def get_expected_value (A : Nat) (ep : ℝ) (q : Table) (s : Nat) : ℝ :=
  let maxQ := maxFun (q s) A
  let greedyProb := 1 - ep + ep / (A : ℝ)
  let randProb := ep / (A : ℝ)
  greedyProb * maxQ + randProb * sumFun (q s) A

/-- Embedding of the Expected SARSA update: blend the old entry with the
reward plus the discounted expected value at the next state. -/
noncomputable def expected_sarsa_update (A : Nat) (al ga ep : ℝ) (q : Table)
    (s a : Nat) (r : ℝ) (ns : Nat) : Table :=
  updateEntry q s a ((1 - al) * q s a + al * (r + ga * get_expected_value A ep q ns))

/-- The random draws one training episode may consume: the reset state, up
to two exploration draws with their random action candidates, and the
Double Q coin. -/
structure EpisodeRand where
  resetState : Nat
  u1 : ℝ
  ra1 : Nat
  u2 : ℝ
  ra2 : Nat
  coin : Bool

/-- The all-zero random stream used for concrete instantiations. -/
noncomputable def zero_rand : Nat → EpisodeRand := fun _ => ⟨0, 0, 0, 0, 0, true⟩

/-- Embedding of choose action: explore with the random action when the
uniform draw is below epsilon, otherwise take the row argmax at the state. -/
noncomputable def choose_action (ep : ℝ) (A : Nat) (q : Table) (u : ℝ)
    (ra st : Nat) : Nat :=
  if u < ep then ra else argmaxFun (q st) A

/-- Choose action for the Double Q agent: the greedy branch takes the argmax
of the pointwise sum of the two tables at the state. -/
noncomputable def double_q_choose_action (ep : ℝ) (A : Nat) (q1 q2 : Table)
    (u : ℝ) (ra st : Nat) : Nat :=
  if u < ep then ra else argmaxFun (fun a => q1 st a + q2 st a) A

/-- One Q-learning training episode: reset, choose an action, step, update;
the pair carries the table and the stored environment state. -/
noncomputable def q_episode (e : Env) (al ga ep : ℝ) (er : EpisodeRand)
    (p : Table × Nat) : Table × Nat :=
  let st := er.resetState
  let a := choose_action ep e.actionSpaceSize p.1 er.u1 er.ra1 st
  let s := e.step p.2 a
  (q_update e.actionSpaceSize al ga p.1 st a s.2.2.1 s.2.1, s.1)

/-- The Q-learning training loop over the first n episodes. -/
noncomputable def q_train_loop (e : Env) (al ga ep : ℝ)
    (rng : Nat → EpisodeRand) : Nat → Table × Nat → Table × Nat
  | 0, p => p
  | n + 1, p => q_episode e al ga ep (rng n) (q_train_loop e al ga ep rng n p)

/-- The best joint action after training: the argmax over actions of the
maximum over states of the table. -/
noncomputable def best_joint_action (e : Env) (q : Table) : Nat :=
  argmaxFun (fun a => maxFun (fun s => q s a) e.stateSpaceSize) e.actionSpaceSize

/-- One per-link result record: the link capacity and the chosen azimuth. -/
structure LinkResult where
  capacity : ℝ
  azimuth : ℝ

/-- Terminal extraction shared by all four agents: decode the best joint
action, query the capacity breakdown, and format one record per link
together with the total capacity. -/
noncomputable def extract_results (e : Env) (q : Table) : List LinkResult × ℝ :=
  let best := best_joint_action e q
  let idxs := to_angle_indices e.num_azimuth_steps e.numLinks best
  let cp := get_individual_capacities e idxs
  ((List.range e.numLinks).map
    (fun i => ⟨cp.1.getD i 0, e.azimuthAngle (idxs.getD i 0)⟩), cp.2)

/-- Embedding of the Q-learning train method: run the requested number of
episodes, then extract the results from the final table. -/
noncomputable def q_train (e : Env) (al ga ep : ℝ) (rng : Nat → EpisodeRand)
    (p : Table × Nat) (episodes : Nat) : List LinkResult × ℝ :=
  extract_results e (q_train_loop e al ga ep rng episodes p).1

/-- One SARSA training episode: reset, choose an action, step, choose the
next action, update with it. -/
noncomputable def sarsa_episode (e : Env) (al ga ep : ℝ) (er : EpisodeRand)
    (p : Table × Nat) : Table × Nat :=
  let st := er.resetState
  let a := choose_action ep e.actionSpaceSize p.1 er.u1 er.ra1 st
  let s := e.step p.2 a
  let na := choose_action ep e.actionSpaceSize p.1 er.u2 er.ra2 s.2.1
  (sarsa_update al ga p.1 st a s.2.2.1 s.2.1 na, s.1)

/-- The SARSA training loop over the first n episodes. -/
noncomputable def sarsa_train_loop (e : Env) (al ga ep : ℝ)
    (rng : Nat → EpisodeRand) : Nat → Table × Nat → Table × Nat
  | 0, p => p
  | n + 1, p => sarsa_episode e al ga ep (rng n) (sarsa_train_loop e al ga ep rng n p)

/-- Embedding of the SARSA train method. -/
noncomputable def sarsa_train (e : Env) (al ga ep : ℝ) (rng : Nat → EpisodeRand)
    (p : Table × Nat) (episodes : Nat) : List LinkResult × ℝ :=
  extract_results e (sarsa_train_loop e al ga ep rng episodes p).1

/-- One Double Q training episode over the two tables and the stored state. -/
noncomputable def double_q_episode (e : Env) (al ga ep : ℝ) (er : EpisodeRand)
    (p : Table × Table × Nat) : Table × Table × Nat :=
  let st := er.resetState
  let a := double_q_choose_action ep e.actionSpaceSize p.1 p.2.1 er.u1 er.ra1 st
  let s := e.step p.2.2 a
  let qq := double_q_update e.actionSpaceSize al ga p.1 p.2.1 er.coin st a s.2.2.1 s.2.1
  (qq.1, qq.2, s.1)

/-- The Double Q training loop over the first n episodes. -/
noncomputable def double_q_train_loop (e : Env) (al ga ep : ℝ)
    (rng : Nat → EpisodeRand) : Nat → Table × Table × Nat → Table × Table × Nat
  | 0, p => p
  | n + 1, p =>
    double_q_episode e al ga ep (rng n) (double_q_train_loop e al ga ep rng n p)

/-- Embedding of the Double Q train method: the terminal extraction runs on
the pointwise sum of the two tables. -/
noncomputable def double_q_train (e : Env) (al ga ep : ℝ)
    (rng : Nat → EpisodeRand) (p : Table × Table × Nat) (episodes : Nat) :
    List LinkResult × ℝ :=
  let fin := double_q_train_loop e al ga ep rng episodes p
  extract_results e (fun s a => fin.1 s a + fin.2.1 s a)

/-- One Expected SARSA training episode. -/
noncomputable def expected_sarsa_episode (e : Env) (al ga ep : ℝ)
    (er : EpisodeRand) (p : Table × Nat) : Table × Nat :=
  let st := er.resetState
  let a := choose_action ep e.actionSpaceSize p.1 er.u1 er.ra1 st
  let s := e.step p.2 a
  (expected_sarsa_update e.actionSpaceSize al ga ep p.1 st a s.2.2.1 s.2.1, s.1)

/-- The Expected SARSA training loop over the first n episodes. -/
noncomputable def expected_sarsa_train_loop (e : Env) (al ga ep : ℝ)
    (rng : Nat → EpisodeRand) : Nat → Table × Nat → Table × Nat
  | 0, p => p
  | n + 1, p =>
    expected_sarsa_episode e al ga ep (rng n) (expected_sarsa_train_loop e al ga ep rng n p)

/-- Embedding of the Expected SARSA train method. -/
noncomputable def expected_sarsa_train (e : Env) (al ga ep : ℝ)
    (rng : Nat → EpisodeRand) (p : Table × Nat) (episodes : Nat) :
    List LinkResult × ℝ :=
  extract_results e (expected_sarsa_train_loop e al ga ep rng episodes p).1

/-- The outcome record of one optimization request: the success flag, the
total capacity, and the per-link results. -/
structure OptResult where
  success : Bool
  total_capacity : ℝ
  results : List LinkResult

/-- Embedding of the optimize endpoint: build the environment with 36
azimuth steps, dispatch on the algorithm selector with fresh zero tables,
and return a failure record with no results for an unknown selector. -/
noncomputable def optimize_beams (links : List Link) (algo : String)
    (episodes : Nat) (rng : Nat → EpisodeRand) (st0 : Nat) : OptResult :=
  let e : Env := ⟨links, 36⟩
  if algo = "q_learning" then
    let rt := q_train e 0.1 0.9 0.1 rng (zero_table, st0) episodes
    ⟨true, rt.2, rt.1⟩
  else if algo = "sarsa" then
    let rt := sarsa_train e 0.1 0.9 0.1 rng (zero_table, st0) episodes
    ⟨true, rt.2, rt.1⟩
  else if algo = "double_q" then
    let rt := double_q_train e 0.1 0.9 0.1 rng (zero_table, zero_table, st0) episodes
    ⟨true, rt.2, rt.1⟩
  else if algo = "expected_sarsa" then
    let rt := expected_sarsa_train e 0.1 0.9 0.1 rng (zero_table, st0) episodes
    ⟨true, rt.2, rt.1⟩
  else ⟨false, 0, []⟩

/-- A concrete one-link environment used by witness instantiations. -/
noncomputable def env_ex : Env := ⟨[⟨(0, 0), (1, 0)⟩], 4⟩

/-- Shifting the accumulation offset by one multiplies the result by the
radix. -/
theorem to_state_index_aux_succ (ns : Nat) (l : List Nat) :
    ∀ i, to_state_index_aux ns l (i + 1) = ns * to_state_index_aux ns l i := by
  induction l with
  | nil => intro i; simp [to_state_index_aux]
  | cons d rest ih =>
    intro i
    simp only [to_state_index_aux, ih (i + 1), Nat.mul_add, pow_succ]
    ring

/-- Unfolding the encoder on a cons cell. -/
theorem to_state_index_cons (ns d : Nat) (l : List Nat) :
    to_state_index ns (d :: l) = d + ns * to_state_index ns l := by
  simp [to_state_index, to_state_index_aux, to_state_index_aux_succ]

/-- Decoding the encoding of an in-range digit list returns the list. -/
theorem decode_encode (ns : Nat) :
    ∀ idxs : List Nat, (∀ x ∈ idxs, x < ns) →
      to_angle_indices ns idxs.length (to_state_index ns idxs) = idxs := by
  intro idxs
  induction idxs with
  | nil => intro _; simp [to_angle_indices, to_state_index, to_state_index_aux]
  | cons d rest ih =>
    intro h
    have hd : d < ns := h d (List.mem_cons_self d rest)
    have hns : 0 < ns := Nat.lt_of_le_of_lt (Nat.zero_le d) hd
    have hrest : ∀ x ∈ rest, x < ns := fun x hx => h x (List.mem_cons_of_mem d hx)
    simp only [List.length_cons, to_angle_indices, to_state_index_cons]
    have h1 : (d + ns * to_state_index ns rest) % ns = d := by
      rw [Nat.add_mul_mod_self_left]
      exact Nat.mod_eq_of_lt hd
    have h2 : (d + ns * to_state_index ns rest) / ns = to_state_index ns rest := by
      rw [Nat.add_mul_div_left d _ hns, Nat.div_eq_of_lt hd, Nat.zero_add]
    rw [h1, h2, ih hrest]

/-- Encoding the decoding of an in-range code returns the code. -/
theorem encode_decode (ns : Nat) :
    ∀ (numLinks code : Nat), code < ns ^ numLinks →
      to_state_index ns (to_angle_indices ns numLinks code) = code := by
  intro numLinks
  induction numLinks with
  | zero =>
    intro code hc
    simp only [pow_zero, Nat.lt_one_iff] at hc
    simp [hc, to_angle_indices, to_state_index, to_state_index_aux]
  | succ L ih =>
    intro code hc
    have hns : 0 < ns := by
      rcases Nat.eq_zero_or_pos ns with h0 | h0
      · subst h0; simp at hc
      · exact h0
    have hdiv : code / ns < ns ^ L := by
      rw [Nat.div_lt_iff_lt_mul hns]
      calc code < ns ^ (L + 1) := hc
        _ = ns ^ L * ns := by rw [pow_succ]
    simp only [to_angle_indices, to_state_index_cons, ih (code / ns) hdiv]
    exact Nat.mod_add_div code ns

/-- Decoding always yields one index per link. -/
theorem to_angle_indices_length (ns : Nat) :
    ∀ numLinks code, (to_angle_indices ns numLinks code).length = numLinks := by
  intro numLinks
  induction numLinks with
  | zero => intro code; simp [to_angle_indices]
  | succ L ih => intro code; simp [to_angle_indices, ih]

/-- Every decoded index is below the radix when the radix is positive. -/
theorem to_angle_indices_mem_lt (ns : Nat) (hns : 0 < ns) :
    ∀ numLinks code, ∀ x ∈ to_angle_indices ns numLinks code, x < ns := by
  intro numLinks
  induction numLinks with
  | zero => intro code x hx; simp [to_angle_indices] at hx
  | succ L ih =>
    intro code x hx
    simp only [to_angle_indices, List.mem_cons] at hx
    rcases hx with h | h
    · subst h; exact Nat.mod_lt code hns
    · exact ih (code / ns) x h

/-- C1: for every num_links and num_steps at least 1, the angle codec is a
mutual inverse pair: encoding the decoding of any in-range code gives back
the code, and decoding the encoding of any length-num_links list of
in-range indices gives back the list. -/
theorem codec_roundtrip (numLinks ns : Nat) (hL : 1 ≤ numLinks) (hns : 1 ≤ ns) :
    (∀ code, code < ns ^ numLinks →
      to_state_index ns (to_angle_indices ns numLinks code) = code) ∧
    (∀ idxs : List Nat, idxs.length = numLinks → (∀ x ∈ idxs, x < ns) →
      to_angle_indices ns numLinks (to_state_index ns idxs) = idxs) := by
  constructor
  · intro code hc
    exact encode_decode ns numLinks code hc
  · intro idxs hlen hmem
    rw [← hlen]
    exact decode_encode ns idxs hmem

/-- Witness for the codec round trip at num_links 2, num_steps 3, code 5
and index list [2, 1]. -/
theorem codec_roundtrip_witness :
    to_state_index 3 (to_angle_indices 3 2 5) = 5 ∧
    to_angle_indices 3 2 (to_state_index 3 [2, 1]) = [2, 1] :=
  ⟨(codec_roundtrip 2 3 (by decide) (by decide)).1 5 (by decide),
   (codec_roundtrip 2 3 (by decide) (by decide)).2 [2, 1] (by decide) (by decide)⟩

/-- C9: for positive num_steps, decoding any code yields exactly num_links
components, each strictly below num_steps, so every azimuth grid lookup on
a decoded action in get individual capacities stays in bounds. -/
theorem decode_in_bounds (ns numLinks code : Nat) (hns : 1 ≤ ns)
    (hcode : code < ns ^ numLinks) :
    (to_angle_indices ns numLinks code).length = numLinks ∧
    (∀ x ∈ to_angle_indices ns numLinks code, x < ns) ∧
    (∀ i, i < numLinks → (to_angle_indices ns numLinks code).getD i 0 < ns) := by
  refine ⟨to_angle_indices_length ns numLinks code,
    to_angle_indices_mem_lt ns hns numLinks code, ?_⟩
  intro i hi
  have hlen : i < (to_angle_indices ns numLinks code).length := by
    rw [to_angle_indices_length]; exact hi
  rw [List.getD_eq_getElem _ _ hlen]
  exact to_angle_indices_mem_lt ns hns numLinks code _ (List.getElem_mem hlen)

/-- Witness for decode bounds at num_steps 3, num_links 2, code 7. -/
theorem decode_in_bounds_witness :
    (to_angle_indices 3 2 7).length = 2 ∧
    (∀ x ∈ to_angle_indices 3 2 7, x < 3) ∧
    (∀ i, i < 2 → (to_angle_indices 3 2 7).getD i 0 < 3) :=
  decode_in_bounds 3 2 7 (by decide) (by decide)

/-- A sum of two squares is positive unless both terms vanish. -/
theorem sum_sq_pos_of_ne (a b : ℝ) (h : ¬(a = 0 ∧ b = 0)) : 0 < a ^ 2 + b ^ 2 := by
  rcases eq_or_ne a 0 with ha | ha
  · rcases eq_or_ne b 0 with hb | hb
    · exact absurd ⟨ha, hb⟩ h
    · have hb2 : 0 < b ^ 2 := lt_of_le_of_ne (sq_nonneg b) (Ne.symm (pow_ne_zero 2 hb))
      nlinarith [sq_nonneg a]
  · have ha2 : 0 < a ^ 2 := lt_of_le_of_ne (sq_nonneg a) (Ne.symm (pow_ne_zero 2 ha))
    nlinarith [sq_nonneg b]

/-- The dot product of a direction of angle t with a unit vector is at
most 1. -/
theorem dot_unit_le_one (t u v : ℝ) (huv : u ^ 2 + v ^ 2 = 1) :
    Real.cos t * u + Real.sin t * v ≤ 1 := by
  nlinarith [sq_nonneg (Real.cos t - u), sq_nonneg (Real.sin t - v),
    Real.sin_sq_add_cos_sq t]

/-- Normalizing a nonzero plane vector yields a unit vector. -/
theorem normalized_unit (dx dy : ℝ) (h : ¬(dx = 0 ∧ dy = 0)) :
    (dx / Real.sqrt (dx ^ 2 + dy ^ 2)) ^ 2 +
      (dy / Real.sqrt (dx ^ 2 + dy ^ 2)) ^ 2 = 1 := by
  have hpos := sum_sq_pos_of_ne dx dy h
  have hsq : Real.sqrt (dx ^ 2 + dy ^ 2) ≠ 0 := ne_of_gt (Real.sqrt_pos.mpr hpos)
  field_simp

/-- C4: beam alignment always lies in [0, 1]; it is exactly 1 when the
transmitter and receiver coincide, and otherwise it is the dot product of
the transmit direction unit vector with the unit-normalized direction from
transmitter to receiver, clamped below at 0. -/
theorem beam_alignment_spec (tx rx : ℝ × ℝ) (deg : ℝ) :
    (0 ≤ get_beam_alignment tx rx deg ∧ get_beam_alignment tx rx deg ≤ 1) ∧
    (tx = rx → get_beam_alignment tx rx deg = 1) ∧
    (tx ≠ rx → get_beam_alignment tx rx deg =
      max 0 (Real.cos (deg * Real.pi / 180) *
          ((rx.1 - tx.1) / Real.sqrt ((rx.1 - tx.1) ^ 2 + (rx.2 - tx.2) ^ 2)) +
        Real.sin (deg * Real.pi / 180) *
          ((rx.2 - tx.2) / Real.sqrt ((rx.1 - tx.1) ^ 2 + (rx.2 - tx.2) ^ 2)))) := by
  refine ⟨?_, ?_, ?_⟩
  · by_cases hn : Real.sqrt ((rx.1 - tx.1) ^ 2 + (rx.2 - tx.2) ^ 2) = 0
    · simp only [get_beam_alignment, hn, if_pos]
      norm_num
    · have hcond : ¬(rx.1 - tx.1 = 0 ∧ rx.2 - tx.2 = 0) := by
        rintro ⟨h1, h2⟩
        apply hn
        rw [h1, h2]
        simp
      simp only [get_beam_alignment, hn, if_neg, not_false_iff]
      constructor
      · exact le_max_left 0 _
      · exact max_le zero_le_one
          (dot_unit_le_one (deg * Real.pi / 180) _ _
            (normalized_unit (rx.1 - tx.1) (rx.2 - tx.2) hcond))
  · intro h
    subst h
    simp [get_beam_alignment]
  · intro h
    have hcond : ¬(rx.1 - tx.1 = 0 ∧ rx.2 - tx.2 = 0) := by
      rintro ⟨h1, h2⟩
      apply h
      have e1 : tx.1 = rx.1 := by linarith [sub_eq_zero.mp h1]
      have e2 : tx.2 = rx.2 := by linarith [sub_eq_zero.mp h2]
      exact Prod.ext_iff.mpr ⟨e1, e2⟩
    have hn : Real.sqrt ((rx.1 - tx.1) ^ 2 + (rx.2 - tx.2) ^ 2) ≠ 0 :=
      ne_of_gt (Real.sqrt_pos.mpr (sum_sq_pos_of_ne _ _ hcond))
    simp only [get_beam_alignment, hn, if_neg, not_false_iff]

/-- Witness for the beam alignment specification: coinciding positions give
alignment 1, and distinct positions give the clamped dot product form. -/
theorem beam_alignment_spec_witness :
    get_beam_alignment (0, 0) (0, 0) 45 = 1 ∧
    get_beam_alignment (0, 0) (1, 0) 45 =
      max 0 (Real.cos (45 * Real.pi / 180) *
          ((1 - 0) / Real.sqrt ((1 - 0) ^ 2 + (0 - 0) ^ 2)) +
        Real.sin (45 * Real.pi / 180) *
          ((0 - 0) / Real.sqrt ((1 - 0) ^ 2 + (0 - 0) ^ 2))) :=
  ⟨(beam_alignment_spec (0, 0) (0, 0) 45).2.1 rfl,
   (beam_alignment_spec (0, 0) (1, 0) 45).2.2 (by simp [Prod.ext_iff])⟩

/-- The interference loop accumulates the interference terms of the first n
links in order. -/
theorem interference_power_sum (e : Env) (idxs : List Nat) (i : Nat) :
    ∀ n, interference_power e idxs i n =
      ∑ j in Finset.range n, interference_term e idxs i j := by
  intro n
  induction n with
  | zero => simp [interference_power]
  | succ m ih => rw [interference_power, ih, Finset.sum_range_succ]

/-- A sum with the diagonal term zeroed out equals the sum with the
diagonal index removed. -/
theorem sum_sdiff_singleton (n i : Nat) (P : Nat → ℝ) :
    ∑ j in Finset.range n \ {i}, P j =
    ∑ j in Finset.range n, (if i = j then 0 else P j) := by
  rw [Finset.sdiff_eq_filter, Finset.sum_filter]
  refine Finset.sum_congr rfl ?_
  intro j _
  by_cases h : i = j
  · simp [h]
  · simp [h, Ne.symm h]

/-- The interference power on link i over all links equals the sum of the
beam powers of every link other than i received at the receiver of i. -/
theorem interference_power_eq (e : Env) (idxs : List Nat) (i n : Nat) :
    interference_power e idxs i n =
      ∑ j in Finset.range n \ {i},
        10 * (get_beam_alignment (e.link j).tx_pos (e.link i).rx_pos
          (e.azimuthAngle (idxs.getD j 0))) ^ 10 := by
  rw [interference_power_sum, sum_sdiff_singleton]
  exact Finset.sum_congr rfl (fun j _ => by rw [interference_term])

/-- The capacity loop builds the list of per-link capacities in link
order. -/
theorem cap_loop_fst (e : Env) (idxs : List Nat) :
    ∀ n, (cap_loop e idxs n).1 = (List.range n).map (link_capacity e idxs) := by
  intro n
  induction n with
  | zero => simp [cap_loop]
  | succ m ih => simp [cap_loop, ih, List.range_succ]

/-- The accumulated total of the capacity loop equals the sum of the built
list. -/
theorem cap_loop_snd (e : Env) (idxs : List Nat) :
    ∀ n, (cap_loop e idxs n).2 = (cap_loop e idxs n).1.sum := by
  intro n
  induction n with
  | zero => simp [cap_loop]
  | succ m ih => simp [cap_loop, ih, List.sum_append]

/-- Entry i of the capacity list is the capacity of link i. -/
theorem cap_getD (e : Env) (idxs : List Nat) (i : Nat) (h : i < e.numLinks) :
    (get_individual_capacities e idxs).1.getD i 0 = link_capacity e idxs i := by
  rw [get_individual_capacities, cap_loop_fst]
  have hlen : i < ((List.range e.numLinks).map (link_capacity e idxs)).length := by
    simp [h]
  rw [List.getD_eq_getElem _ _ hlen]
  simp

/-- C2: get individual capacities returns one capacity per link; capacity i
is log base 2 of one plus the SINR of link i, whose numerator is ten times
the tenth power of the own-beam alignment and whose denominator adds the
noise floor 0.1 to the summed interference powers of all other links; and
the returned total equals the sum of the per-link capacities. -/
theorem capacities_spec (e : Env) (idxs : List Nat) :
    (get_individual_capacities e idxs).1.length = e.numLinks ∧
    (∀ i, i < e.numLinks →
      (get_individual_capacities e idxs).1.getD i 0 =
        Real.logb 2 (1 +
          (10 * (get_beam_alignment (e.link i).tx_pos (e.link i).rx_pos
            (e.azimuthAngle (idxs.getD i 0))) ^ 10) /
          ((∑ j in Finset.range e.numLinks \ {i},
            10 * (get_beam_alignment (e.link j).tx_pos (e.link i).rx_pos
              (e.azimuthAngle (idxs.getD j 0))) ^ 10) + 0.1))) ∧
    (get_individual_capacities e idxs).2 = (get_individual_capacities e idxs).1.sum := by
  refine ⟨?_, ?_, cap_loop_snd e idxs e.numLinks⟩
  · rw [get_individual_capacities, cap_loop_fst]
    simp
  · intro i hi
    rw [cap_getD e idxs i hi]
    simp only [link_capacity, signal_power]
    rw [interference_power_eq]

/-- Witness for the capacity specification on the one-link environment. -/
theorem capacities_spec_witness :
    (get_individual_capacities env_ex [0]).1.getD 0 0 =
      Real.logb 2 (1 +
        (10 * (get_beam_alignment (env_ex.link 0).tx_pos (env_ex.link 0).rx_pos
          (env_ex.azimuthAngle (([0] : List Nat).getD 0 0))) ^ 10) /
        ((∑ j in Finset.range env_ex.numLinks \ {0},
          10 * (get_beam_alignment (env_ex.link j).tx_pos (env_ex.link 0).rx_pos
            (env_ex.azimuthAngle (([0] : List Nat).getD j 0))) ^ 10) + 0.1)) :=
  (capacities_spec env_ex [0]).2.1 0 (by simp [env_ex, Env.numLinks])

/-- C3: step stores the action as the new environment state, returns that
same state, returns as reward the total network capacity of the decoded
per-link angle indices, and returns done equal to true. -/
theorem step_spec (e : Env) (st action : Nat) (h : action < e.stateSpaceSize) :
    (e.step st action).1 = action ∧
    (e.step st action).2.1 = action ∧
    (e.step st action).2.2.1 =
      (get_individual_capacities e
        (to_angle_indices e.num_azimuth_steps e.numLinks action)).2 ∧
    (e.step st action).2.2.2 = true := by
  refine ⟨rfl, rfl, ?_, rfl⟩
  show calculate_network_capacity e _ = _
  rw [calculate_network_capacity]
  exact (cap_loop_snd e _ e.numLinks).symm

/-- Witness for the step specification on the one-link environment at
action 3. -/
theorem step_spec_witness :
    (env_ex.step 0 3).1 = 3 ∧
    (env_ex.step 0 3).2.1 = 3 ∧
    (env_ex.step 0 3).2.2.1 =
      (get_individual_capacities env_ex
        (to_angle_indices env_ex.num_azimuth_steps env_ex.numLinks 3)).2 ∧
    (env_ex.step 0 3).2.2.2 = true :=
  step_spec env_ex 0 3 (by norm_num [Env.stateSpaceSize, Env.numLinks, env_ex])

/-- The interference power is a sum of non-negative terms. -/
theorem interference_power_nonneg (e : Env) (idxs : List Nat) (i : Nat) :
    ∀ n, 0 ≤ interference_power e idxs i n := by
  intro n
  induction n with
  | zero => simp [interference_power]
  | succ m ih =>
    rw [interference_power]
    have ht : 0 ≤ interference_term e idxs i m := by
      rw [interference_term]
      by_cases h : i = m
      · simp [h]
      · simp only [h, if_false]
        positivity
    linarith

/-- Every link capacity is non-negative: the SINR is a quotient of a
non-negative signal power by a positive denominator, so the logarithm
argument is at least 1. -/
theorem link_capacity_nonneg (e : Env) (idxs : List Nat) (i : Nat) :
    0 ≤ link_capacity e idxs i := by
  rw [link_capacity]
  apply Real.logb_nonneg (by norm_num)
  have h1 : 0 ≤ signal_power e idxs i := by
    rw [signal_power]
    positivity
  have h2 : 0 ≤ interference_power e idxs i e.numLinks :=
    interference_power_nonneg e idxs i e.numLinks
  have h3 : (0 : ℝ) < interference_power e idxs i e.numLinks + 0.1 := by linarith
  have h4 : 0 ≤ signal_power e idxs i / (interference_power e idxs i e.numLinks + 0.1) :=
    div_nonneg h1 (le_of_lt h3)
  linarith

/-- Every member of the capacity list is non-negative. -/
theorem capacities_mem_nonneg (e : Env) (idxs : List Nat) :
    ∀ c ∈ (get_individual_capacities e idxs).1, 0 ≤ c := by
  intro c hc
  rw [get_individual_capacities, cap_loop_fst] at hc
  rcases List.mem_map.mp hc with ⟨i, _, rfl⟩
  exact link_capacity_nonneg e idxs i

/-- Reading a list of non-negative reals at any position with default 0
yields a non-negative value. -/
theorem getD_nonneg (l : List ℝ) (h : ∀ c ∈ l, 0 ≤ c) (i : Nat) :
    0 ≤ l.getD i 0 := by
  by_cases hi : i < l.length
  · rw [List.getD_eq_getElem _ _ hi]
    exact h _ (List.getElem_mem hi)
  · rw [List.getD_eq_default _ _ (le_of_not_lt hi)]

/-- C10: every per-link capacity is non-negative, hence the reward returned
by step and the capacity stored in any final result record are
non-negative as well. -/
theorem capacities_nonneg (e : Env) (idxs : List Nat) (st action i : Nat)
    (q : Table) :
    (∀ c ∈ (get_individual_capacities e idxs).1, 0 ≤ c) ∧
    0 ≤ (e.step st action).2.2.1 ∧
    0 ≤ ((extract_results e q).1.getD i ⟨0, 0⟩).capacity := by
  refine ⟨capacities_mem_nonneg e idxs, ?_, ?_⟩
  · show 0 ≤ calculate_network_capacity e _
    rw [calculate_network_capacity]
    exact List.sum_nonneg (capacities_mem_nonneg e _)
  · rw [extract_results]
    by_cases hi : i < ((List.range e.numLinks).map (fun k =>
        (⟨(get_individual_capacities e (to_angle_indices e.num_azimuth_steps
            e.numLinks (best_joint_action e q))).1.getD k 0,
          e.azimuthAngle ((to_angle_indices e.num_azimuth_steps e.numLinks
            (best_joint_action e q)).getD k 0)⟩ : LinkResult))).length
    · rw [List.getD_eq_getElem _ _ hi]
      simp only [List.getElem_map]
      exact getD_nonneg _ (capacities_mem_nonneg e _) _
    · rw [List.getD_eq_default _ _ (le_of_not_lt hi)]

/-- Witness for the non-negativity claim on the one-link environment. -/
theorem capacities_nonneg_witness :
    0 ≤ link_capacity env_ex [0] 0 ∧
    0 ≤ (env_ex.step 0 0).2.2.1 ∧
    0 ≤ ((extract_results env_ex zero_table).1.getD 0 ⟨0, 0⟩).capacity :=
  ⟨(capacities_nonneg env_ex [0] 0 0 0 zero_table).1 (link_capacity env_ex [0] 0)
    (by rw [get_individual_capacities, cap_loop_fst]
        simp [Env.numLinks, env_ex]),
   (capacities_nonneg env_ex [0] 0 0 0 zero_table).2.1,
   (capacities_nonneg env_ex [0] 0 0 0 zero_table).2.2⟩

/-- C5: for each outcome of the coin, the Double Q update writes exactly one
entry of exactly one table — blending the old entry toward the reward plus
the discounted value, read in the other table, of the argmax of the other table
at the next state — and returns the non-chosen table entirely unchanged. -/
theorem double_q_update_spec (A : Nat) (al ga : ℝ) (q1 q2 : Table) (s a : Nat)
    (r : ℝ) (ns : Nat) :
    ((double_q_update A al ga q1 q2 true s a r ns).2 = q2 ∧
      (double_q_update A al ga q1 q2 true s a r ns).1 s a =
        (1 - al) * q1 s a + al * (r + ga * q2 ns (argmaxFun (q2 ns) A)) ∧
      ∀ s2 a2, ¬(s2 = s ∧ a2 = a) →
        (double_q_update A al ga q1 q2 true s a r ns).1 s2 a2 = q1 s2 a2) ∧
    ((double_q_update A al ga q1 q2 false s a r ns).1 = q1 ∧
      (double_q_update A al ga q1 q2 false s a r ns).2 s a =
        (1 - al) * q2 s a + al * (r + ga * q1 ns (argmaxFun (q1 ns) A)) ∧
      ∀ s2 a2, ¬(s2 = s ∧ a2 = a) →
        (double_q_update A al ga q1 q2 false s a r ns).2 s2 a2 = q2 s2 a2) := by
  refine ⟨⟨rfl, ?_, ?_⟩, rfl, ?_, ?_⟩
  · simp [double_q_update, updateEntry]
  · intro s2 a2 h
    simp [double_q_update, updateEntry, h]
  · simp [double_q_update, updateEntry]
  · intro s2 a2 h
    simp [double_q_update, updateEntry, h]

/-- Witness for the Double Q update: entries other than the written one are
unchanged in both coin branches. -/
theorem double_q_update_spec_witness :
    (double_q_update 1 0 0 zero_table zero_table true 0 0 0 0).1 1 1 =
      zero_table 1 1 ∧
    (double_q_update 1 0 0 zero_table zero_table false 0 0 0 0).2 1 1 =
      zero_table 1 1 :=
  ⟨(double_q_update_spec 1 0 0 zero_table zero_table 0 0 0 0).1.2.2 1 1 (by simp),
   (double_q_update_spec 1 0 0 zero_table zero_table 0 0 0 0).2.2.2 1 1 (by simp)⟩

/-- At zero exploration the epsilon-greedy expectation collapses to the row
maximum. -/
theorem expected_value_zero_eps (A : Nat) (q : Table) (s : Nat) :
    get_expected_value A 0 q s = maxFun (q s) A := by
  rw [get_expected_value]
  simp

/-- C6: with epsilon zero, the Q-learning update and the Expected SARSA
update produce identical tables for every quadruple, because the
epsilon-greedy expectation degenerates to the row maximum. -/
theorem q_learning_expected_sarsa_agree (A : Nat) (al ga : ℝ) (q : Table)
    (s a : Nat) (r : ℝ) (ns : Nat) (hA : 0 < A) :
    q_update A al ga q s a r ns = expected_sarsa_update A al ga 0 q s a r ns ∧
    get_expected_value A 0 q ns = maxFun (q ns) A := by
  refine ⟨?_, expected_value_zero_eps A q ns⟩
  rw [q_update, expected_sarsa_update, expected_value_zero_eps]

/-- Witness for the zero-exploration agreement at a concrete quadruple. -/
theorem q_learning_expected_sarsa_agree_witness :
    q_update 1 0 0 zero_table 0 0 0 0 =
      expected_sarsa_update 1 0 0 0 zero_table 0 0 0 0 :=
  (q_learning_expected_sarsa_agree 1 0 0 zero_table 0 0 0 0 (by decide)).1

/-- The Q-learning training loop processes episodes 0 through n - 1 in
order, with no early stopping. -/
theorem q_train_loop_foldl (e : Env) (al ga ep : ℝ) (rng : Nat → EpisodeRand) :
    ∀ n p, q_train_loop e al ga ep rng n p =
      (List.range n).foldl (fun acc i => q_episode e al ga ep (rng i) acc) p := by
  intro n
  induction n with
  | zero => intro p; simp [q_train_loop]
  | succ m ih =>
    intro p
    rw [q_train_loop, ih, List.range_succ, List.foldl_append]
    simp

/-- C7: training folds exactly the requested number of single-step episodes
over the table in order, then decodes the joint action maximizing over
actions the maximum over states of the final table, queries the capacity
breakdown for it, and returns one record per link pairing the capacity of that link with its chosen azimuth, together with the total capacity. -/
theorem q_train_spec (e : Env) (al ga ep : ℝ) (rng : Nat → EpisodeRand)
    (p : Table × Nat) (episodes : Nat) :
    q_train_loop e al ga ep rng episodes p =
      (List.range episodes).foldl (fun acc i => q_episode e al ga ep (rng i) acc) p ∧
    q_train e al ga ep rng p episodes =
      ((List.range e.numLinks).map (fun i =>
        (⟨(get_individual_capacities e (to_angle_indices e.num_azimuth_steps
            e.numLinks (argmaxFun (fun a => maxFun
              (fun s => (q_train_loop e al ga ep rng episodes p).1 s a)
              e.stateSpaceSize) e.actionSpaceSize))).1.getD i 0,
          e.azimuthAngle ((to_angle_indices e.num_azimuth_steps e.numLinks
            (argmaxFun (fun a => maxFun
              (fun s => (q_train_loop e al ga ep rng episodes p).1 s a)
              e.stateSpaceSize) e.actionSpaceSize)).getD i 0)⟩ : LinkResult)),
       (get_individual_capacities e (to_angle_indices e.num_azimuth_steps
          e.numLinks (argmaxFun (fun a => maxFun
            (fun s => (q_train_loop e al ga ep rng episodes p).1 s a)
            e.stateSpaceSize) e.actionSpaceSize))).2) ∧
    (q_train e al ga ep rng p episodes).1.length = e.numLinks := by
  refine ⟨q_train_loop_foldl e al ga ep rng episodes p, rfl, ?_⟩
  rw [q_train, extract_results]
  simp

/-- Extraction on a link-free environment yields no records and zero total
capacity. -/
theorem extract_results_nil (e : Env) (q : Table) (h : e.links = []) :
    extract_results e q = ([], 0) := by
  have h0 : e.numLinks = 0 := by rw [Env.numLinks, h]; rfl
  rw [extract_results, get_individual_capacities, h0]
  simp [cap_loop]

/-- C8 counterexample: a request with an empty link list and a recognized
selector is not rejected — training runs and the request reports success. -/
theorem optimize_beams_empty_links_succeeds :
    (optimize_beams [] "q_learning" 2000 zero_rand 0).success = true := rfl

/-- C8 amended: an unrecognized algorithm selector fails with a non-success
result carrying no per-link results and zero total capacity; an empty link
list is not rejected — the request then returns an empty result list and
zero total capacity, succeeding exactly when the selector is recognized. -/
theorem optimize_beams_spec (links : List Link) (algo : String) (episodes : Nat)
    (rng : Nat → EpisodeRand) (st0 : Nat) :
    (algo ∉ (["q_learning", "sarsa", "double_q", "expected_sarsa"] : List String) →
      optimize_beams links algo episodes rng st0 = ⟨false, 0, []⟩) ∧
    (links = [] →
      (optimize_beams links algo episodes rng st0).results = [] ∧
      (optimize_beams links algo episodes rng st0).total_capacity = 0 ∧
      ((optimize_beams links algo episodes rng st0).success = true ↔
        algo ∈ (["q_learning", "sarsa", "double_q", "expected_sarsa"] : List String))) := by
  constructor
  · intro h
    simp only [List.mem_cons, List.not_mem_nil, or_false, not_or] at h
    obtain ⟨h1, h2, h3, h4⟩ := h
    rw [optimize_beams, if_neg h1, if_neg h2, if_neg h3, if_neg h4]
  · intro hl
    subst hl
    by_cases h1 : algo = "q_learning"
    · subst h1
      simp [optimize_beams, q_train, extract_results_nil]
    by_cases h2 : algo = "sarsa"
    · subst h2
      simp [optimize_beams, sarsa_train, extract_results_nil]
    by_cases h3 : algo = "double_q"
    · subst h3
      simp [optimize_beams, double_q_train, extract_results_nil]
    by_cases h4 : algo = "expected_sarsa"
    · subst h4
      simp [optimize_beams, expected_sarsa_train, extract_results_nil]
    rw [optimize_beams, if_neg h1, if_neg h2, if_neg h3, if_neg h4]
    simp [h1, h2, h3, h4]

/-- Witness for the amended dispatcher claim: an unknown selector yields the
failure record, and an empty-link request with a recognized selector yields
success with no per-link results. -/
theorem optimize_beams_spec_witness :
    optimize_beams [] "foo" 2000 zero_rand 0 = ⟨false, 0, []⟩ ∧
    (optimize_beams [] "sarsa" 2000 zero_rand 0).results = [] :=
  ⟨(optimize_beams_spec [] "foo" 2000 zero_rand 0).1 (by simp),
   ((optimize_beams_spec [] "sarsa" 2000 zero_rand 0).2 rfl).1⟩
